import Mathlib

/-!
Shallow embedding of the jira-mcp repository (Python) in Lean 4, together
with theorems settling the frozen claims about its specification.

Source files embedded:
- `src/jira_mcp/field_mappings.py`  (field mapping table and translator)
- `src/jira_mcp/jira_client.py`     (document formatter, transition resolver,
                                     request building, delete)
- `src/jira_mcp/server.py`          (tool-level guards and client dispatch)
- `src/jira_mcp/tools.py`           (delete_issue_tool guard)

Python `dict`s are modelled as association lists with Python's insertion
semantics: inserting an existing key updates it in place, a fresh key is
appended.  Python `None` is `Val.null`; JSON-ish values are `Val`.
-/

namespace JiraMCP

/-- A JSON-like value as manipulated by the Python code (`Any` holding
JSON data).  `null` is Python `None`. -/
inductive Val where
  | null : Val
  | bool : Bool → Val
  | num : Int → Val
  | str : String → Val
  | arr : List Val → Val
  | obj : List (String × Val) → Val

/-- `v is None` in Python. -/
def Val.isNull : Val → Bool
  | .null => true
  | _ => false

/-- Python truthiness of a JSON-like value (`if v:`). -/
def Val.truthy : Val → Bool
  | .null => false
  | .bool b => b
  | .num n => n != 0
  | .str s => s != ""
  | .arr l => !l.isEmpty
  | .obj l => !l.isEmpty

/-- Python `repr` of a JSON-like value (used by `str()` on non-string
values; element strings are quoted as Python does). -/
def Val.pyRepr : Val → String
  | .null => "None"
  | .bool b => if b then "True" else "False"
  | .num n => toString n
  | .str s => "\x27" ++ s ++ "\x27"
  | .arr l => "[" ++ String.intercalate ", " (l.attach.map (fun x => Val.pyRepr x.1)) ++ "]"
  | .obj l =>
      "\x7b" ++
        String.intercalate ", "
          (l.attach.map (fun x => "\x27" ++ x.1.1 ++ "\x27: " ++ Val.pyRepr x.1.2)) ++
      "\x7d"
decreasing_by
  · have := List.sizeOf_lt_of_mem x.2
    simp only [Val.arr.sizeOf_spec]
    omega
  · have h1 := List.sizeOf_lt_of_mem x.2
    have h2 : sizeOf x.1.2 < sizeOf x.1 := by
      obtain ⟨a, b⟩ := x.1
      simp only [Prod.mk.sizeOf_spec]
      omega
    simp only [Val.obj.sizeOf_spec]
    omega

/-- Python `str()` of a JSON-like value: a string is itself, anything
else renders as its `repr`. -/
def Val.pyStr : Val → String
  | .str s => s
  | v => v.pyRepr

/-- Python `x == "s"` where `x` is a JSON-like value: true exactly when
`x` is the string `s`. -/
def Val.isStrEq (v : Val) (s : String) : Bool :=
  match v with
  | .str t => t == s
  | _ => false

section Dict

variable {β : Type}

/-- Python dict lookup `d.get(k)` / `d[k]` on an association list:
the first entry with the key (dict invariant keeps keys unique). -/
def dictGet (d : List (String × β)) (k : String) : Option β :=
  (d.find? (fun kv => kv.1 == k)).map (fun kv => kv.2)

/-- Python dict assignment `d[k] = v`: update the existing key in place,
or append a fresh key at the end. -/
def dictInsert (d : List (String × β)) (k : String) (v : β) : List (String × β) :=
  if d.any (fun kv => kv.1 == k) then
    d.map (fun kv => if kv.1 == k then (k, v) else kv)
  else
    d ++ [(k, v)]

/-- Insert a sequence of key/value pairs in order (a loop of dict
assignments). -/
def dictInsertAll (d : List (String × β)) (ps : List (String × β)) : List (String × β) :=
  ps.foldl (fun acc kv => dictInsert acc kv.1 kv.2) d

/-- `k in d` for a Python dict. -/
def dictHasKey (d : List (String × β)) (k : String) : Bool :=
  d.any (fun kv => kv.1 == k)

end Dict

/-!
## `src/jira_mcp/field_mappings.py`
-/

/-- `PROJECT_FIELDS` from `field_mappings.py`: the static per-project
custom-field-id → friendly-name tables, transcribed verbatim. -/
def PROJECT_FIELDS : List (String × List (String × String)) := [
  ("ITHELP", [
    ("customfield_10055", "work_type")]),
  ("ITCM", [
    ("customfield_10055", "work_type"),
    ("customfield_10059", "risk_level"),
    ("customfield_10003", "approvers"),
    ("customfield_10060", "affected_systems"),
    ("customfield_10061", "implementation_window_start"),
    ("customfield_10062", "implementation_window_end"),
    ("customfield_10063", "rollback_plan"),
    ("customfield_10068", "approval_date")]),
  ("ITPROJ", []),
  ("ITPMO", []),
  ("IT", [
    ("customfield_10004", "impact"),
    ("customfield_10041", "urgency"),
    ("customfield_10048", "severity"),
    ("customfield_10087", "category"),
    ("customfield_10042", "affected_services"),
    ("customfield_10049", "affected_hardware"),
    ("customfield_10044", "pending_reason"),
    ("customfield_10010", "request_type"),
    ("customfield_10002", "organizations"),
    ("customfield_10034", "request_participants"),
    ("customfield_10045", "major_incident"),
    ("customfield_10047", "responders"),
    ("customfield_10003", "approvers"),
    ("customfield_10035", "satisfaction"),
    ("customfield_10021", "flagged"),
    ("customfield_10001", "team")]),
  ("ITPROJECT", [
    ("customfield_10011", "epic_name"),
    ("customfield_10014", "epic_link"),
    ("customfield_10015", "start_date"),
    ("customfield_10016", "story_points"),
    ("customfield_10020", "sprint"),
    ("customfield_10021", "flagged"),
    ("customfield_10001", "team")])]

/-- `get_field_mapping`: `PROJECT_FIELDS.get(project_key, dict())`. -/
def get_field_mapping (project_key : String) : List (String × String) :=
  (dictGet PROJECT_FIELDS project_key).getD []

/-- The body of `get_reverse_mapping`'s dict comprehension
`for k, v in mapping.items(): result[v] = k` — builds a fresh dict keyed
by friendly name; a repeated friendly name silently overwrites. -/
def reverseDerive (mapping : List (String × String)) : List (String × String) :=
  mapping.foldl (fun acc kv => dictInsert acc kv.2 kv.1) []

/-- `get_reverse_mapping`: derive friendly-name → field-id per call. -/
def get_reverse_mapping (project_key : String) : List (String × String) :=
  reverseDerive (get_field_mapping project_key)

/-- Python `s.startswith(pre)`: prefix test on the character list.
(Same test as `String.startsWith`, stated structurally so that proofs
can evaluate it on concrete strings.) -/
def pyStartsWith (s pre : String) : Bool :=
  pre.data.isPrefixOf s.data

/-- Loop body of `map_custom_fields`: thread the `(result, unmapped)`
pair through one raw field, mirroring the source's nested ifs. -/
def mapCustomFieldsStep (mapping : List (String × String))
    (acc : List (String × Val) × List (String × Val)) (kv : String × Val) :
    List (String × Val) × List (String × Val) :=
  if pyStartsWith kv.1 "customfield_" then
    if kv.2.isNull then
      acc
    else
      match dictGet mapping kv.1 with
      | some name => (dictInsert acc.1 name kv.2, acc.2)
      | none => (acc.1, dictInsert acc.2 kv.1 kv.2)
  else
    acc

/-- `map_custom_fields(project_key, raw_fields)`: map custom fields from a
raw response to friendly names, collecting unknown ones in `unmapped`,
then attach `unmapped` under the key `custom_fields` only when nonempty. -/
def map_custom_fields (project_key : String) (raw_fields : List (String × Val)) :
    List (String × Val) :=
  let mapping := get_field_mapping project_key
  let ru := raw_fields.foldl (mapCustomFieldsStep mapping) ([], [])
  if ru.2.isEmpty then ru.1 else dictInsert ru.1 "custom_fields" (Val.obj ru.2)

/-- `reverse_map_fields(project_key, friendly_fields)`: relabel friendly
names back to customfield ids, passing unknown keys through unchanged. -/
def reverse_map_fields (project_key : String) (friendly_fields : List (String × Val)) :
    List (String × Val) :=
  let reverse := get_reverse_mapping project_key
  friendly_fields.foldl
    (fun acc kv =>
      match dictGet reverse kv.1 with
      | some fid => dictInsert acc fid kv.2
      | none => dictInsert acc kv.1 kv.2)
    []

/-- The key relabelling applied by `reverse_map_fields` to a single key. -/
def relabelKey (project_key : String) (name : String) : String :=
  (dictGet (get_reverse_mapping project_key) name).getD name

/-- Raw fields that `map_custom_fields` emits under a friendly name:
custom-field keys with non-null values known to the project mapping
(characterisation used to state theorems; derived, not source). -/
def knownOf (mapping : List (String × String)) (raw : List (String × Val)) :
    List (String × Val) :=
  raw.filterMap (fun kv =>
    if pyStartsWith kv.1 "customfield_" && !kv.2.isNull then
      (dictGet mapping kv.1).map (fun n => (n, kv.2))
    else none)

/-- Raw fields that `map_custom_fields` keeps verbatim in the overflow
bag: custom-field keys with non-null values unknown to the project
mapping (characterisation used to state theorems; derived, not source). -/
def overflowOf (mapping : List (String × String)) (raw : List (String × Val)) :
    List (String × Val) :=
  raw.filter (fun kv =>
    pyStartsWith kv.1 "customfield_" && !kv.2.isNull && (dictGet mapping kv.1).isNone)

/-!
## Document formatter (`jira_client.py`: `_to_adf`, `_extract_description`)
-/

/-- `item.get(key, default)` on a JSON-like value that the code treats as
a dict.  (On a non-dict the source would raise; only the dict case is
reachable through the claims, the default is returned otherwise.) -/
def Val.getKey (v : Val) (key : String) (default : Val) : Val :=
  match v with
  | .obj kvs => (dictGet kvs key).getD default
  | _ => default

/-- A value iterated as a Python list (`for x in v`). -/
def Val.asList : Val → List Val
  | .arr l => l
  | _ => []

/-- A value used by the source where a string is expected
(`item.get("text", "")`). -/
def Val.asStr : Val → String
  | .str s => s
  | _ => ""

/-- The paragraph node `_to_adf` builds for one line: a one-run
paragraph for a non-empty line, an explicit empty paragraph for an
empty line. -/
def toAdfParagraph (line : String) : Val :=
  if line ≠ "" then
    Val.obj [("type", Val.str "paragraph"),
             ("content", Val.arr [Val.obj [("type", Val.str "text"), ("text", Val.str line)]])]
  else
    Val.obj [("type", Val.str "paragraph"), ("content", Val.arr [])]

/-- `JiraClient._to_adf(text)`: split on newline; each line becomes a
paragraph node; an empty paragraph list is replaced by a single empty
paragraph.  (Python's split on the one-character separator newline is
`String.split` at each newline character.) -/
def _to_adf (text : String) : Val :=
  let paragraphs := (text.split (fun c => c = '\n')).map toAdfParagraph
  Val.obj [("type", Val.str "doc"),
           ("version", Val.num 1),
           ("content", Val.arr (if paragraphs.isEmpty then
               [Val.obj [("type", Val.str "paragraph"), ("content", Val.arr [])]]
             else paragraphs))]

/-- `isinstance(description, dict) and description.get("type") == "doc"`. -/
def Val.isDocShape (v : Val) : Bool :=
  match v with
  | .obj _ => (v.getKey "type" .null).isStrEq "doc"
  | _ => false

/-- `_extract_description`'s inner loop body: collect the text of a
`{"type": "text"}` item. -/
def extractTextItem (acc : List String) (item : Val) : List String :=
  if (item.getKey "type" .null).isStrEq "text" then
    acc ++ [(item.getKey "text" (.str "")).asStr]
  else acc

/-- `_extract_description`'s outer loop body: walk the content of a
`{"type": "paragraph"}` node, skipping other node kinds. -/
def extractParagraph (acc : List String) (content : Val) : List String :=
  if (content.getKey "type" .null).isStrEq "paragraph" then
    (content.getKey "content" (.arr [])).asList.foldl extractTextItem acc
  else acc

/-- The `texts` list accumulated by `_extract_description`'s nested
loops over a doc-shaped value. -/
def extractTexts (description : Val) : List String :=
  (description.getKey "content" (.arr [])).asList.foldl extractParagraph []

/-- `JiraClient._extract_description(description)`: `None` stays `None`;
a doc-shaped value yields its paragraph text runs joined by newlines, or
`None` when no run was collected; any other value falls back to Python
string coercion (`None` when falsy). -/
def _extract_description (description : Val) : Option String :=
  if description.isNull then
    none
  else if description.isDocShape then
    let texts := extractTexts description
    if texts.isEmpty then none else some (String.intercalate "\n" texts)
  else
    if description.truthy then some description.pyStr else none

/-!
## Transition resolver and workflow transition
(`jira_client.py`: `transition_issue`, lines 514-560)
-/

/-- A transition as returned by `get_transitions`: opaque id plus human
label. -/
structure Transition where
  id : String
  name : String
deriving DecidableEq

/-- The error kinds the embedded operations can fail with.  The source
raises `ValueError`/`RuntimeError`/`AttributeError`/`TypeError` with
formatted messages; each raise site maps to one structured kind carrying
the data interpolated into the source's message. -/
inductive JiraError where
  /-- `No transitions available for {issue_key}` -/
  | noTransitionsAvailable (issueKey : String)
  /-- `Transition '{name}' not available for {key}. Available: ...` -/
  | transitionNotAvailable (requested : String) (available : List String)
  /-- `Multiple transitions match '{name}': ...` -/
  | ambiguousTransition (requested : String) (colliding : List String)
  /-- `Transition failed: {error_data}` (remote 400) -/
  | transitionFailed (body : Val)
  /-- `Issue not found: {issue_key}` (remote 404) -/
  | notFound (issueKey : String)
  /-- `Delete failed: {error_data}` (remote 400) -/
  | deleteFailed (body : Val)
  /-- `delete_issue requires confirm_delete=True. ...` -/
  | confirmationRequired (issueKey : String)
  /-- `requests.raise_for_status` on another 4xx/5xx code -/
  | httpError (statusCode : Nat)
  /-- Python `TypeError`: subscripting `None` (`issue["status"]["name"]`
  when the re-fetched issue has no status) -/
  | noneNotSubscriptable

/-- Python `s.lower()`: lowercase every character.  (Same mapping as
`String.toLower = String.map Char.toLower`, stated on the character list
so that proofs can evaluate it on concrete strings.) -/
def pyLower (s : String) : String :=
  String.mk (s.data.map Char.toLower)

/-- Lines 517-537 of `transition_issue`: resolve a case-insensitively
matching transition from the freshly fetched `transitions` list, or fail
with the empty / zero-match / many-match error. -/
def resolveTransition (issueKey : String) (transitions : List Transition)
    (transition_name : String) : Except JiraError Transition :=
  if transitions.isEmpty then
    .error (.noTransitionsAvailable issueKey)
  else
    let transition_lower := pyLower transition_name
    let matched := transitions.filter (fun t => pyLower t.name == transition_lower)
    match matched with
    | [] => .error (.transitionNotAvailable transition_name (transitions.map Transition.name))
    | [t] => .ok t
    | _ :: _ :: _ => .error (.ambiguousTransition transition_name (matched.map Transition.name))

/-- The slice of a `get_issue` result that `transition_issue` consumes
after re-fetching: the `status` entry (a name/id pair, or `None` when
the remote reported none) and the `updated` timestamp.  The remaining
keys of the result dict play no role in the embedded claims. -/
structure IssueView where
  status : Option (String × String)
  updated : Option String
deriving DecidableEq

/-- The remote responses one `transition_issue` call observes, fetched
fresh per call: the `GET .../transitions` outcome, the HTTP status of
the `POST .../transitions` execution, and the outcome of the final
`get_issue` re-fetch. -/
structure TransitionRemote where
  getTransitionsResult : Except JiraError (List Transition)
  postStatusCode : Nat
  postErrorBody : Val
  getIssueResult : Except JiraError IssueView

/-- The dict returned by a successful `transition_issue`. -/
structure TransitionOutcome where
  key : String
  new_status : String
  transitioned : Option String
deriving DecidableEq

/-- `JiraClient.transition_issue(issue_key, transition_name)`: fetch the
available transitions, resolve the target (lines 514-537), execute the
transition remotely, then re-fetch the issue and report its actual
status name and updated timestamp. -/
def transition_issue (remote : TransitionRemote) (issue_key transition_name : String) :
    Except JiraError TransitionOutcome := do
  let transitions ← remote.getTransitionsResult
  let _transition ← resolveTransition issue_key transitions transition_name
  -- payload {"transition": {"id": transition["id"]}} is POSTed; the
  -- remote's response is `remote.postStatusCode` / `remote.postErrorBody`
  if remote.postStatusCode = 400 then
    throw (.transitionFailed remote.postErrorBody)
  else if 400 ≤ remote.postStatusCode then
    throw (.httpError remote.postStatusCode)
  else
    let issue ← remote.getIssueResult
    match issue.status with
    | none => throw .noneNotSubscriptable
    | some st => pure { key := issue_key, new_status := st.1, transitioned := issue.updated }

/-!
## Request building for create and search (`jira_client.py`)
-/

/-- Python truthiness of an optional string argument (`if description:`):
absent and empty are both falsy. -/
def optStrTruthy : Option String → Bool
  | none => false
  | some s => s != ""

/-- Python truthiness of an optional list argument (`if labels:`):
absent and empty are both falsy. -/
def optListTruthy {α : Type} : Option (List α) → Bool
  | none => false
  | some l => !l.isEmpty

/-- The `fields` dict built by `JiraClient.create_issue` (lines 298-332)
before it is wrapped in the POST payload: required keys, then the
description/priority defaulting, then each optional field guarded by
Python truthiness. -/
def create_issue_fields (project issue_type summary : String)
    (description priority assignee : Option String)
    (labels components : Option (List String))
    (parent_key epic_link : Option String) : List (String × Val) :=
  let fields : List (String × Val) := [
    ("project", .obj [("key", .str project)]),
    ("issuetype", .obj [("name", .str issue_type)]),
    ("summary", .str summary)]
  -- Description is required by ITPROJ - default to summary if not provided
  let fields :=
    if optStrTruthy description then
      dictInsert fields "description" (_to_adf (description.getD ""))
    else
      dictInsert fields "description" (_to_adf summary)
  -- Priority defaults to Medium
  let fields :=
    if optStrTruthy priority then
      dictInsert fields "priority" (.obj [("name", .str (priority.getD ""))])
    else
      dictInsert fields "priority" (.obj [("name", .str "Medium")])
  let fields :=
    if optStrTruthy assignee then
      let a := assignee.getD ""
      if !(a.contains '@') then
        dictInsert fields "assignee" (.obj [("id", .str a)])
      else
        dictInsert fields "assignee" (.obj [("emailAddress", .str a)])
    else fields
  let fields :=
    if optListTruthy labels then
      dictInsert fields "labels" (.arr ((labels.getD []).map .str))
    else fields
  let fields :=
    if optListTruthy components then
      dictInsert fields "components" (.arr ((components.getD []).map
        (fun c => Val.obj [("name", .str c)])))
    else fields
  -- Parent for subtasks
  let fields :=
    if optStrTruthy parent_key then
      dictInsert fields "parent" (.obj [("key", .str (parent_key.getD ""))])
    else fields
  -- Epic link for tasks (customfield_10014)
  let fields :=
    if optStrTruthy epic_link then
      dictInsert fields "customfield_10014" (.str (epic_link.getD ""))
    else fields
  fields

/-- Default field selection of `JiraClient.search_issues`. -/
def defaultSearchFields : List String :=
  ["key", "summary", "status", "assignee", "created", "updated"]

/-- The `params` dict `JiraClient.search_issues` sends with
`GET /rest/api/3/search/jql` (lines 100-111): default the field list,
silently cap `max_results` at 100, then assemble the query parameters. -/
def search_issues_params (jql : String) (max_results : Int)
    (fields : Option (List String)) : List (String × Val) :=
  let fields := match fields with
    | none => defaultSearchFields
    | some fs => fs
  -- Cap max_results at 100
  let max_results := if max_results > 100 then 100 else max_results
  [("jql", .str jql),
   ("maxResults", .num max_results),
   ("fields", .str (String.intercalate "," fields))]

/-!
## Delete guard (`server.py` `delete_issue`, `tools.py` `delete_issue_tool`,
`jira_client.py` `delete_issue`)
-/

/-- One HTTP request issued through `JiraClient._request`, as recorded in
the network trace of an operation. -/
structure NetCall where
  method : String
  endpoint : String
deriving DecidableEq

/-- The remote response one `JiraClient.delete_issue` call observes. -/
structure DeleteRemote where
  statusCode : Nat
  errorBody : Val

/-- The dict returned by a successful `JiraClient.delete_issue`
(the wall-clock `deleted_at` timestamp is outside the embedding). -/
structure DeleteOutcome where
  key : String
  deleted : Bool
deriving DecidableEq

/-- `JiraClient.delete_issue(issue_key)`: issue the DELETE request, then
translate 404/400/other non-2xx into errors.  The result pairs the
operation outcome with the network trace. -/
def client_delete_issue (remote : DeleteRemote) (issue_key : String) :
    Except JiraError DeleteOutcome × List NetCall :=
  let call : NetCall := ⟨"DELETE", "/rest/api/3/issue/" ++ issue_key⟩
  let result : Except JiraError DeleteOutcome :=
    if remote.statusCode = 404 then .error (.notFound issue_key)
    else if remote.statusCode = 400 then .error (.deleteFailed remote.errorBody)
    else if 400 ≤ remote.statusCode then .error (.httpError remote.statusCode)
    else .ok { key := issue_key, deleted := true }
  (result, [call])

/-- `server.py` `delete_issue(issue_key, confirm_delete=False)`: refuse
before touching the client unless `confirm_delete` is explicitly true;
only then obtain the client and delegate the remote delete. -/
def server_delete_issue (remote : DeleteRemote) (issue_key : String)
    (confirm_delete : Bool := false) : Except JiraError DeleteOutcome × List NetCall :=
  if !confirm_delete then
    (.error (.confirmationRequired issue_key), [])
  else
    client_delete_issue remote issue_key

/-- `tools.py` `delete_issue_tool(issue_key, confirm_delete=False)`: the
same guard-then-delegate body as the server tool. -/
def delete_issue_tool (remote : DeleteRemote) (issue_key : String)
    (confirm_delete : Bool := false) : Except JiraError DeleteOutcome × List NetCall :=
  if !confirm_delete then
    (.error (.confirmationRequired issue_key), [])
  else
    client_delete_issue remote issue_key

/-!
## Python method dispatch on `JiraClient`
(`server.py` `create_issue` / `update_issue` / `search_users` /
`attach_file` call sites)
-/

/-- What a Python method call does before the method body runs:
attribute lookup fails with `AttributeError` when the object has no such
method; keyword binding fails with `TypeError` when a keyword has no
matching parameter; only otherwise is the body entered (and only the
body can build an HTTP request). -/
inductive CallOutcome where
  /-- `AttributeError: 'JiraClient' object has no attribute '...'` -/
  | attributeError (attr : String)
  /-- `TypeError: ... got an unexpected keyword argument ...` -/
  | typeError (unexpectedKwargs : List String)
  /-- binding succeeded; the method body runs -/
  | bodyEntered
deriving DecidableEq

/-- The methods `class JiraClient` defines in `jira_client.py`, each with
its parameter names (`self` omitted).  Neither `search_users` nor
`attach_file` is among them. -/
def jiraClientMethodTable : List (String × List String) := [
  ("__init__", ["base_url", "email", "api_token"]),
  ("_request", ["method", "endpoint", "params", "json_data"]),
  ("search_issues", ["jql", "max_results", "fields"]),
  ("get_issue", ["issue_key"]),
  ("_extract_description", ["description"]),
  ("_to_adf", ["text"]),
  ("create_issue", ["project", "issue_type", "summary", "description", "priority",
                    "assignee", "labels", "components", "parent_key", "epic_link"]),
  ("update_issue", ["issue_key", "fields"]),
  ("add_comment", ["issue_key", "body", "visibility"]),
  ("get_transitions", ["issue_key"]),
  ("transition_issue", ["issue_key", "transition_name"]),
  ("delete_issue", ["issue_key"])]

/-- Python semantics of `client.<name>(k1=..., k2=..., ...)` against
`JiraClient`: attribute lookup, then keyword binding, before any body
statement executes. -/
def invokeClientMethod (name : String) (kwargs : List String) : CallOutcome :=
  match dictGet jiraClientMethodTable name with
  | none => .attributeError name
  | some params =>
      let unexpected := kwargs.filter (fun k => !params.contains k)
      if unexpected.isEmpty then .bodyEntered else .typeError unexpected

/-- The keyword arguments `server.py`'s `create_issue` passes to
`client.create_issue` (lines 171-190). -/
def serverCreateIssueKwargs : List String :=
  ["project", "issue_type", "summary", "description", "priority", "assignee",
   "labels", "components", "parent_key", "epic_link", "work_type", "risk_level",
   "approvers", "affected_systems", "implementation_window_start",
   "implementation_window_end", "rollback_plan", "custom_fields"]

/-- The keyword arguments `server.py`'s `update_issue` passes to
`client.update_issue` (line 271). -/
def serverUpdateIssueKwargs : List String :=
  ["issue_key", "fields", "custom_fields"]

/-- The keyword arguments `server.py`'s `search_users` passes to
`client.search_users` (line 410). -/
def serverSearchUsersKwargs : List String :=
  ["query", "max_results"]

/-- The keyword arguments `server.py`'s `attach_file` passes to
`client.attach_file` (lines 452-456). -/
def serverAttachFileKwargs : List String :=
  ["issue_key", "file_path", "filename"]

/-- `server.py` `attach_file(issue_key, file_path, filename=None)`: the
path is resolved locally (`Path(file_path).expanduser().resolve()`,
abstracted by `resolve`), then `client.attach_file(...)` is invoked; the
operation's observable outcome is that dispatch outcome paired with the
(empty) network trace accumulated so far. -/
def server_attach_file (resolve : String → String) (issue_key file_path : String)
    (filename : Option String) : CallOutcome × List NetCall :=
  let resolved_path := resolve file_path
  let _ := (issue_key, resolved_path, filename)
  (invokeClientMethod "attach_file" serverAttachFileKwargs, [])

/-!
## Association-list dictionary lemmas
-/

section DictLemmas

variable {β : Type}

theorem dictGet_nil (q : String) : dictGet ([] : List (String × β)) q = none := rfl

theorem dictGet_cons (kv : String × β) (d : List (String × β)) (q : String) :
    dictGet (kv :: d) q = if kv.1 = q then some kv.2 else dictGet d q := by
  by_cases h : kv.1 = q
  · simp [dictGet, List.find?_cons_of_pos, h]
  · simp [dictGet, List.find?_cons_of_neg, h]

theorem dictGet_append (d₁ d₂ : List (String × β)) (q : String) :
    dictGet (d₁ ++ d₂) q = (dictGet d₁ q).or (dictGet d₂ q) := by
  simp [dictGet, List.find?_append]
  cases d₁.find? (fun kv => kv.1 == q) <;> simp

theorem dictGet_mem {d : List (String × β)} {k : String} {v : β}
    (h : dictGet d k = some v) : (k, v) ∈ d := by
  simp only [dictGet, Option.map_eq_some'] at h
  obtain ⟨kv, hfind, hv⟩ := h
  have hmem := List.mem_of_find?_eq_some hfind
  have hkey : kv.1 = k := by simpa using List.find?_some hfind
  obtain ⟨a, b⟩ := kv
  simp only at hkey hv
  subst hkey; subst hv
  exact hmem

theorem dictGet_eq_none {d : List (String × β)} {k : String}
    (h : ∀ kv ∈ d, kv.1 ≠ k) : dictGet d k = none := by
  simp only [dictGet, Option.map_eq_none']
  exact List.find?_eq_none.mpr (by simpa using h)

theorem dictGet_of_nodup_mem {d : List (String × β)} {k : String} {v : β}
    (hnd : (d.map Prod.fst).Nodup) (hmem : (k, v) ∈ d) : dictGet d k = some v := by
  induction d with
  | nil => simp at hmem
  | cons kv d ih =>
      simp only [List.map_cons, List.nodup_cons] at hnd
      rcases List.mem_cons.mp hmem with h | h
      · rw [← h, dictGet_cons]; simp
      · rw [dictGet_cons]
        have hne : kv.1 ≠ k := by
          intro hk
          exact hnd.1 (hk ▸ (List.mem_map.mpr ⟨(k, v), h, rfl⟩))
        simp only [hne, if_false]
        exact ih hnd.2 h

theorem dictHasKey_eq_false_iff {d : List (String × β)} {k : String} :
    dictHasKey d k = false ↔ ∀ kv ∈ d, kv.1 ≠ k := by
  simp [dictHasKey]

theorem dictInsert_of_fresh {d : List (String × β)} {k : String} (v : β)
    (h : dictHasKey d k = false) : dictInsert d k v = d ++ [(k, v)] := by
  simp only [dictHasKey] at h
  simp [dictInsert, h]

theorem mem_dictInsert {d : List (String × β)} {k : String} {v : β} {kv : String × β}
    (h : kv ∈ dictInsert d k v) : kv ∈ d ∨ kv = (k, v) := by
  unfold dictInsert at h
  split at h
  · obtain ⟨x, hx, hfx⟩ := List.mem_map.mp h
    by_cases hk : x.1 = k
    · right
      rw [if_pos (by simp [hk])] at hfx
      exact hfx.symm
    · left
      rw [if_neg (by simp [hk])] at hfx
      exact hfx ▸ hx
  · rcases List.mem_append.mp h with h | h
    · exact Or.inl h
    · right; simpa using h

theorem dictGet_dictInsert_map {d : List (String × β)} {k : String} (v : β) (q : String) :
    dictGet (d.map (fun kv => if kv.1 == k then (k, v) else kv)) q =
      if q = k then (if d.any (fun kv => kv.1 == k) then some v else none)
      else dictGet d q := by
  induction d with
  | nil => simp [dictGet]
  | cons kv d ih =>
      simp only [List.map_cons, List.any_cons]
      by_cases hk : kv.1 = k
      · simp only [hk, beq_self_eq_true, if_true, Bool.true_or]
        rw [dictGet_cons]
        by_cases hq : q = k
        · subst hq; simp
        · have hkq : ¬ (k = q) := fun h => hq h.symm
          rw [dictGet_cons]
          simp only [hkq, if_false, ih, hq, hk]
      · simp only [beq_eq_false_iff_ne.mpr hk, Bool.false_eq_true, if_false, Bool.false_or]
        rw [dictGet_cons, dictGet_cons]
        by_cases hq : kv.1 = q
        · have hqk : ¬ q = k := fun h => hk (by rw [hq, h])
          rw [if_pos hq, if_neg hqk, if_pos hq]
        · rw [if_neg hq, ih]
          by_cases hqk : q = k <;> simp [hqk, hq]

theorem dictGet_dictInsert (d : List (String × β)) (k : String) (v : β) (q : String) :
    dictGet (dictInsert d k v) q = if q = k then some v else dictGet d q := by
  unfold dictInsert
  split
  · rename_i hany
    rw [dictGet_dictInsert_map]
    simp [hany]
  · rename_i hany
    rw [dictGet_append]
    by_cases hq : q = k
    · subst hq
      have hnone : dictGet d q = none := by
        apply dictGet_eq_none
        intro kv hkv hk
        exact hany (List.any_eq_true.mpr ⟨kv, hkv, by simp [hk]⟩)
      rw [hnone, dictGet_cons]
      simp
    · have hne : ¬ (k = q) := fun h => hq h.symm
      rw [dictGet_cons]
      simp only [hne, if_false, dictGet_nil, hq]
      cases dictGet d q <;> simp

theorem dictInsert_ne_nil (d : List (String × β)) (k : String) (v : β) :
    dictInsert d k v ≠ [] := by
  unfold dictInsert
  split
  · rename_i hany
    intro h
    have hd : d = [] := by simpa using h
    subst hd
    simp at hany
  · simp

theorem dictInsertAll_eq_append {d ps : List (String × β)}
    (hfresh : ∀ p ∈ ps, dictHasKey d p.1 = false)
    (hnd : (ps.map Prod.fst).Nodup) : dictInsertAll d ps = d ++ ps := by
  induction ps generalizing d with
  | nil => simp [dictInsertAll]
  | cons p ps ih =>
      simp only [List.map_cons, List.nodup_cons] at hnd
      have hstep : dictInsert d p.1 p.2 = d ++ [(p.1, p.2)] :=
        dictInsert_of_fresh p.2 (hfresh p (List.mem_cons_self p ps))
      have hfresh2 : ∀ q ∈ ps, dictHasKey (d ++ [(p.1, p.2)]) q.1 = false := by
        intro q hq
        rw [dictHasKey_eq_false_iff]
        intro kv hkv
        rcases List.mem_append.mp hkv with h | h
        · exact (dictHasKey_eq_false_iff.mp (hfresh q (List.mem_cons_of_mem p hq))) kv h
        · simp only [List.mem_singleton] at h
          subst h
          simp only
          intro hkeq
          apply hnd.1
          rw [hkeq]
          exact List.mem_map.mpr ⟨q, hq, rfl⟩
      have hrec : dictInsertAll (d ++ [(p.1, p.2)]) ps = (d ++ [(p.1, p.2)]) ++ ps :=
        ih hfresh2 hnd.2
      calc dictInsertAll d (p :: ps)
          = dictInsertAll (dictInsert d p.1 p.2) ps := rfl
        _ = dictInsertAll (d ++ [(p.1, p.2)]) ps := by rw [hstep]
        _ = (d ++ [(p.1, p.2)]) ++ ps := hrec
        _ = d ++ (p :: ps) := by simp

end DictLemmas

/-!
## Claim theorems: dispatch failures, delete guard, search clamp, attach
-/

/-- C5: The server-level `create_issue` and `update_issue` operations
pass keyword arguments (`work_type`, `risk_level`, `approvers`,
`affected_systems`, `implementation_window_start`,
`implementation_window_end`, `rollback_plan`, `custom_fields`) that
`JiraClient.create_issue` / `JiraClient.update_issue` do not accept, and
`search_users` calls a method `JiraClient` does not define, so for every
input each call fails at dispatch — with `TypeError` or
`AttributeError` — before the method body (the only code that builds an
HTTP request) runs. -/
theorem server_dispatch_fails_before_request :
    invokeClientMethod "create_issue" serverCreateIssueKwargs =
      .typeError ["work_type", "risk_level", "approvers", "affected_systems",
                  "implementation_window_start", "implementation_window_end",
                  "rollback_plan", "custom_fields"]
    ∧ invokeClientMethod "update_issue" serverUpdateIssueKwargs =
        .typeError ["custom_fields"]
    ∧ invokeClientMethod "search_users" serverSearchUsersKwargs =
        .attributeError "search_users"
    ∧ invokeClientMethod "create_issue" serverCreateIssueKwargs ≠ .bodyEntered
    ∧ invokeClientMethod "update_issue" serverUpdateIssueKwargs ≠ .bodyEntered
    ∧ invokeClientMethod "search_users" serverSearchUsersKwargs ≠ .bodyEntered := by
  refine ⟨rfl, rfl, rfl, ?_, ?_, ?_⟩ <;> decide

/-- C7: `delete_issue` (server tool) and `delete_issue_tool` both refuse
with `ConfirmationRequired` and issue no network call whatsoever when
the confirmation flag is `false` — which is also its default, covering
the omitted case; the guard runs before the client is even obtained. -/
theorem delete_without_confirmation_refuses_locally
    (remote : DeleteRemote) (issue_key : String) :
    server_delete_issue remote issue_key false =
      (.error (.confirmationRequired issue_key), [])
    ∧ delete_issue_tool remote issue_key false =
      (.error (.confirmationRequired issue_key), [])
    ∧ server_delete_issue remote issue_key =
      (.error (.confirmationRequired issue_key), []) := by
  exact ⟨rfl, rfl, rfl⟩

/-- C9: `search_issues` silently caps `max_results` at 100 when it
exceeds 100 — the issued request carries `maxResults = 100` and no error
path exists — and passes any value of at most 100 through unchanged. -/
theorem search_clamps_max_results (jql : String) (m : Int)
    (fields : Option (List String)) :
    (100 < m →
      dictGet (search_issues_params jql m fields) "maxResults" = some (.num 100))
    ∧ (m ≤ 100 →
      dictGet (search_issues_params jql m fields) "maxResults" = some (.num m)) := by
  constructor
  · intro h
    have hgt : m > 100 := h
    simp [search_issues_params, dictGet, List.find?, hgt]
  · intro h
    have hle : ¬ (m > 100) := not_lt.mpr h
    simp [search_issues_params, dictGet, List.find?, hle]

/-- Witness for C9: `max_results = 500` is issued as 100; `50` passes
through. -/
theorem search_clamps_max_results_witness :
    dictGet (search_issues_params "project = ITPROJ" 500 none) "maxResults" =
      some (.num 100)
    ∧ dictGet (search_issues_params "project = ITPROJ" 50 none) "maxResults" =
      some (.num 50) :=
  ⟨(search_clamps_max_results "project = ITPROJ" 500 none).1 (by norm_num),
   (search_clamps_max_results "project = ITPROJ" 50 none).2 (by norm_num)⟩

/-- C10 (code bug): for EVERY local file path — existing or not — the
server-level `attach_file` fails with
`AttributeError: 'JiraClient' object has no attribute 'attach_file'`
the moment it delegates to the client, because `JiraClient` defines no
`attach_file` method; no `FileNotFound` check is ever reached, although
the failure does occur before any network call. -/
theorem attach_file_fails_with_attribute_error
    (resolve : String → String) (issue_key file_path : String)
    (filename : Option String) :
    server_attach_file resolve issue_key file_path filename =
      (.attributeError "attach_file", []) := rfl

/-!
## Claim theorems: transition resolution and execution
-/

/-- C1: transition resolution is a four-way case split — an empty
available list fails with `NoTransitionsAvailable` before any matching;
zero case-insensitive matches fail with `TransitionNotAvailable`
carrying all available transition names; exactly one match is returned;
two or more matches fail with `AmbiguousTransition` carrying the
colliding names. -/
theorem resolveTransition_cases (issue_key target : String) (ts : List Transition) :
    (ts = [] →
      resolveTransition issue_key ts target = .error (.noTransitionsAvailable issue_key))
    ∧ (ts ≠ [] →
        ts.filter (fun t => pyLower t.name == pyLower target) = [] →
        resolveTransition issue_key ts target =
          .error (.transitionNotAvailable target (ts.map Transition.name)))
    ∧ (∀ t, ts.filter (fun t => pyLower t.name == pyLower target) = [t] →
        resolveTransition issue_key ts target = .ok t)
    ∧ (∀ t₁ t₂ rest,
        ts.filter (fun t => pyLower t.name == pyLower target) = t₁ :: t₂ :: rest →
        resolveTransition issue_key ts target =
          .error (.ambiguousTransition target
            ((ts.filter (fun t => pyLower t.name == pyLower target)).map Transition.name))) := by
  have hempty : ∀ (l : List Transition), l ≠ [] → l.isEmpty = false := by
    intro l hl
    cases l with
    | nil => exact absurd rfl hl
    | cons a l => rfl
  refine ⟨?_, ?_, ?_, ?_⟩
  · intro h
    subst h
    rfl
  · intro hne hfil
    simp only [resolveTransition, hempty ts hne, Bool.false_eq_true, if_false, hfil]
  · intro t hfil
    have hne : ts ≠ [] := by
      intro h
      subst h
      simp at hfil
    simp only [resolveTransition, hempty ts hne, Bool.false_eq_true, if_false, hfil]
  · intro t₁ t₂ rest hfil
    have hne : ts ≠ [] := by
      intro h
      subst h
      simp at hfil
    simp only [resolveTransition, hempty ts hne, Bool.false_eq_true, if_false, hfil]

/-- Witness for C1 (the claim's example): against available transitions
`[{id:"2",name:"To Do"}, {id:"3",name:"in progress"}]`, the target
`"IN PROGRESS"` resolves to the transition with id `"3"`; and the other
three branches fire on concrete inputs. -/
theorem resolveTransition_cases_witness :
    resolveTransition "ITPROJ-45" [⟨"2", "To Do"⟩, ⟨"3", "in progress"⟩] "IN PROGRESS" =
      .ok ⟨"3", "in progress"⟩
    ∧ resolveTransition "ITPROJ-45" [] "Done" =
      .error (.noTransitionsAvailable "ITPROJ-45")
    ∧ resolveTransition "ITPROJ-45" [⟨"2", "To Do"⟩, ⟨"3", "in progress"⟩] "Cancelled" =
      .error (.transitionNotAvailable "Cancelled" ["To Do", "in progress"])
    ∧ resolveTransition "ITPROJ-45" [⟨"2", "Done"⟩, ⟨"3", "DONE"⟩] "done" =
      .error (.ambiguousTransition "done" ["Done", "DONE"]) := by
  refine ⟨?_, ?_, ?_, ?_⟩
  · exact (resolveTransition_cases "ITPROJ-45" "IN PROGRESS"
      [⟨"2", "To Do"⟩, ⟨"3", "in progress"⟩]).2.2.1 ⟨"3", "in progress"⟩ (by decide)
  · exact (resolveTransition_cases "ITPROJ-45" "Done" []).1 rfl
  · exact (resolveTransition_cases "ITPROJ-45" "Cancelled"
      [⟨"2", "To Do"⟩, ⟨"3", "in progress"⟩]).2.1 (by decide) (by decide)
  · have hfil : List.filter (fun t => pyLower t.name == pyLower "done")
        [(⟨"2", "Done"⟩ : Transition), ⟨"3", "DONE"⟩] = [⟨"2", "Done"⟩, ⟨"3", "DONE"⟩] := by
      decide
    have h := (resolveTransition_cases "ITPROJ-45" "done"
      [⟨"2", "Done"⟩, ⟨"3", "DONE"⟩]).2.2.2 ⟨"2", "Done"⟩ ⟨"3", "DONE"⟩ [] hfil
    rw [hfil] at h
    exact h

/-- C6: whenever `transition_issue` succeeds, the issue was re-fetched
after the remote transition call and the returned `new_status` is the
re-fetched issue's actual status name (and `transitioned` its updated
timestamp) — never a copy of the caller's requested transition name. -/
theorem transition_reports_refetched_status (remote : TransitionRemote)
    (issue_key transition_name : String) (out : TransitionOutcome)
    (h : transition_issue remote issue_key transition_name = .ok out) :
    ∃ issue st, remote.getIssueResult = .ok issue ∧ issue.status = some st ∧
      out.new_status = st.1 ∧ out.key = issue_key ∧ out.transitioned = issue.updated := by
  unfold transition_issue at h
  cases hgt : remote.getTransitionsResult with
  | error e => rw [hgt] at h; simp [Bind.bind, Except.bind] at h
  | ok ts =>
      rw [hgt] at h
      simp only [Bind.bind, Except.bind] at h
      cases hrt : resolveTransition issue_key ts transition_name with
      | error e => rw [hrt] at h; simp at h
      | ok t =>
          rw [hrt] at h
          simp only at h
          split at h
          · simp [throw, throwThe, MonadExceptOf.throw] at h
          · split at h
            · simp [throw, throwThe, MonadExceptOf.throw] at h
            · cases hgi : remote.getIssueResult with
              | error e => rw [hgi] at h; simp at h
              | ok issue =>
                  rw [hgi] at h
                  simp only at h
                  cases hst : issue.status with
                  | none =>
                      rw [hst] at h
                      simp [throw, throwThe, MonadExceptOf.throw] at h
                  | some st =>
                      rw [hst] at h
                      simp only [pure, Except.pure, Except.ok.injEq] at h
                      exact ⟨issue, st, rfl, hst, by rw [← h], by rw [← h], by rw [← h]⟩

/-- Witness for C6: a successful concrete run whose re-fetched status
(`"Done"`) differs from the requested transition name
(`"in progress"`); the reported `new_status` is the re-fetched one. -/
theorem transition_reports_refetched_status_witness :
    ∃ issue st,
      (TransitionRemote.mk (.ok [⟨"3", "In Progress"⟩]) 204 .null
        (.ok ⟨some ("Done", "10001"), some "2026-02-04T12:00:00Z"⟩)).getIssueResult =
          .ok issue
      ∧ issue.status = some st
      ∧ (TransitionOutcome.mk "ITPROJ-45" "Done" (some "2026-02-04T12:00:00Z")).new_status = st.1
      ∧ (TransitionOutcome.mk "ITPROJ-45" "Done" (some "2026-02-04T12:00:00Z")).key = "ITPROJ-45"
      ∧ (TransitionOutcome.mk "ITPROJ-45" "Done" (some "2026-02-04T12:00:00Z")).transitioned =
          issue.updated :=
  transition_reports_refetched_status
    (TransitionRemote.mk (.ok [⟨"3", "In Progress"⟩]) 204 .null
      (.ok ⟨some ("Done", "10001"), some "2026-02-04T12:00:00Z"⟩))
    "ITPROJ-45" "in progress"
    (TransitionOutcome.mk "ITPROJ-45" "Done" (some "2026-02-04T12:00:00Z"))
    (by rfl)

/-!
## Claim theorems: create defaulting
-/

/-- Pushing a dict lookup through a conditional insert of a different
key. -/
theorem dictGet_ite_dictInsert {β : Type} (c : Prop) [Decidable c]
    (d : List (String × β)) (k : String) (v : β) (q : String) (hne : q ≠ k) :
    dictGet (if c then dictInsert d k v else d) q = dictGet d q := by
  split
  · rw [dictGet_dictInsert, if_neg hne]
  · rfl

/-- C8: `create_issue` with no description supplied sends a description
equal to the rich-document (ADF) conversion of the supplied summary, and
with no priority supplied sends priority `"Medium"`. -/
theorem create_issue_defaults (project issue_type summary : String)
    (description priority assignee : Option String)
    (labels components : Option (List String))
    (parent_key epic_link : Option String) :
    (description = none →
      dictGet (create_issue_fields project issue_type summary description priority
        assignee labels components parent_key epic_link) "description" =
        some (_to_adf summary))
    ∧ (priority = none →
      dictGet (create_issue_fields project issue_type summary description priority
        assignee labels components parent_key epic_link) "priority" =
        some (.obj [("name", .str "Medium")])) := by
  constructor
  · intro hd
    subst hd
    simp [create_issue_fields, optStrTruthy,
      apply_ite (fun d => dictGet (β := Val) d "description"),
      dictGet_dictInsert, dictGet_cons]
  · intro hp
    subst hp
    simp [create_issue_fields, optStrTruthy,
      apply_ite (fun d => dictGet (β := Val) d "priority"),
      dictGet_dictInsert, dictGet_cons]

/-- Witness for C8: a concrete create call with neither description nor
priority supplied defaults the description to the ADF conversion of the
summary and the priority to Medium. -/
theorem create_issue_defaults_witness :
    dictGet (create_issue_fields "ITPROJ" "Task" "Test" none none none
      none none none none) "description" = some (_to_adf "Test")
    ∧ dictGet (create_issue_fields "ITPROJ" "Task" "Test" none none none
      none none none none) "priority" = some (.obj [("name", .str "Medium")]) :=
  ⟨(create_issue_defaults "ITPROJ" "Task" "Test" none none none
      none none none none).1 rfl,
   (create_issue_defaults "ITPROJ" "Task" "Test" none none none
      none none none none).2 rfl⟩

/-!
## Claim theorems: document round trip
-/

theorem intercalate_go_data (s : String) (as : List String) : ∀ (acc : String),
    String.intercalate.go acc s as =
      String.mk (acc.data ++ (as.map (fun a => s.data ++ a.data)).flatten) := by
  induction as with
  | nil =>
      intro acc
      simp only [String.intercalate.go, List.map_nil, List.flatten_nil, List.append_nil]
  | cons a as ih =>
      intro acc
      simp only [String.intercalate.go, ih, List.map_cons, List.flatten_cons,
        String.data_append, List.append_assoc]

theorem flatten_intersperse (sep : List Char) (x : List Char) (xs : List (List Char)) :
    ((x :: xs).intersperse sep).flatten = x ++ (xs.map (fun a => sep ++ a)).flatten := by
  induction xs generalizing x with
  | nil => simp [List.intersperse]
  | cons y rest ih =>
      simp only [List.intersperse, List.flatten_cons, ih y, List.map_cons,
        List.append_assoc]

theorem intercalate_data (s : String) (as : List String) :
    String.intercalate s as = String.mk (List.intercalate s.data (as.map String.data)) := by
  cases as with
  | nil => rfl
  | cons a as =>
      rw [String.intercalate, intercalate_go_data]
      simp only [List.intercalate, List.map_cons, flatten_intersperse,
        List.map_map, Function.comp]
      rfl

theorem split_ne_nil (s : String) (p : Char → Bool) : s.split p ≠ [] := by
  rw [String.split_of_valid]
  intro h
  rw [List.map_eq_nil_iff] at h
  exact List.splitOnP_ne_nil p s.data h

theorem intercalate_newline_split (s : String) :
    String.intercalate "\n" (s.split (fun c => c = '\n')) = s := by
  rw [String.split_of_valid, intercalate_data]
  have hmm : ∀ (ls : List (List Char)), (ls.map String.mk).map String.data = ls := by
    intro ls
    rw [List.map_map]
    exact List.map_id'' (fun l => rfl) ls
  rw [hmm]
  have hlem := @List.intercalate_splitOn Char s.data '\n' _
  exact congrArg String.mk hlem

theorem foldl_extractParagraph_map (lines : List String) : ∀ (acc : List String),
    (lines.map toAdfParagraph).foldl extractParagraph acc =
      acc ++ lines.filter (fun l => l ≠ "") := by
  induction lines with
  | nil => intro acc; simp
  | cons l rest ih =>
      intro acc
      simp only [List.map_cons, List.foldl_cons]
      by_cases hl : l = ""
      · subst hl
        have hstep : extractParagraph acc (toAdfParagraph "") = acc := rfl
        rw [hstep, ih]
        simp
      · have hpara : toAdfParagraph l =
            Val.obj [("type", Val.str "paragraph"),
              ("content", Val.arr [Val.obj [("type", Val.str "text"), ("text", Val.str l)]])] := by
          unfold toAdfParagraph
          rw [if_pos hl]
        have hstep : extractParagraph acc (toAdfParagraph l) = acc ++ [l] := by
          rw [hpara]
          rfl
        rw [hstep, ih]
        simp [List.filter_cons, hl]

theorem extractTexts_to_adf (s : String) :
    extractTexts (_to_adf s) = (s.split (fun c => c = '\n')).filter (fun l => l ≠ "") := by
  have hisEmpty : ((s.split (fun c => c = '\n')).map toAdfParagraph).isEmpty = false := by
    have hne := split_ne_nil s (fun c => c = '\n')
    cases hsp : s.split (fun c => c = '\n') with
    | nil => exact absurd hsp hne
    | cons a l => rfl
  have hcontent : Val.getKey (_to_adf s) "content" (.arr []) =
      .arr (if ((s.split (fun c => c = '\n')).map toAdfParagraph).isEmpty then
          [Val.obj [("type", Val.str "paragraph"), ("content", Val.arr [])]]
        else (s.split (fun c => c = '\n')).map toAdfParagraph) := rfl
  unfold extractTexts
  rw [hcontent, hisEmpty]
  simp only [Bool.false_eq_true, if_false, Val.asList]
  exact foldl_extractParagraph_map _ []

/-- What converting to the rich document and extracting back actually
computes: the non-empty lines of the input, joined by newlines, or
`None` when no non-empty line exists. -/
theorem extract_to_adf (s : String) :
    _extract_description (_to_adf s) =
      (if ((s.split (fun c => c = '\n')).filter (fun l => l ≠ "")).isEmpty then none
       else some (String.intercalate "\n"
         ((s.split (fun c => c = '\n')).filter (fun l => l ≠ "")))) := by
  have hnull : (_to_adf s).isNull = false := rfl
  have hdoc : (_to_adf s).isDocShape = true := rfl
  unfold _extract_description
  rw [hnull, hdoc]
  simp only [Bool.false_eq_true, if_false, if_true, extractTexts_to_adf]

/-- C2 (corrected): converting to the rich document and back is the
identity for strings all of whose newline-separated lines are non-empty
(blank lines and the empty string are NOT preserved, see the
counterexample). -/
theorem to_adf_round_trip (s : String)
    (h : ∀ l ∈ s.split (fun c => c = '\n'), l ≠ "") :
    _extract_description (_to_adf s) = some s := by
  rw [extract_to_adf]
  have hfil : (s.split (fun c => c = '\n')).filter (fun l => l ≠ "") =
      s.split (fun c => c = '\n') :=
    List.filter_eq_self.mpr (fun a ha => by simpa using h a ha)
  rw [hfil]
  have hne := split_ne_nil s (fun c => c = '\n')
  have hisEmpty : (s.split (fun c => c = '\n')).isEmpty = false := by
    cases hsp : s.split (fun c => c = '\n') with
    | nil => exact absurd hsp hne
    | cons a l => rfl
  rw [hisEmpty]
  simp only [Bool.false_eq_true, if_false, intercalate_newline_split]

/-- Counterexample to C2 as stated: a string with an embedded blank
line does NOT round-trip — the blank line is dropped, because
`_extract_description` collects only text runs and an empty paragraph
contributes none — and the empty string comes back as `None`, not
`""`. -/
theorem to_adf_round_trip_counterexample :
    _extract_description (_to_adf "Line 1\n\nLine 3") = some "Line 1\nLine 3"
    ∧ some "Line 1\nLine 3" ≠ some "Line 1\n\nLine 3"
    ∧ _extract_description (_to_adf "") = none := by
  refine ⟨?_, by decide, ?_⟩
  · rw [extract_to_adf]
    have hsp : ("Line 1\n\nLine 3").split (fun c => c = '\n') = ["Line 1", "", "Line 3"] := by
      rw [String.split_of_valid]
      decide
    rw [hsp]
    rfl
  · rw [extract_to_adf]
    have hsp : ("" : String).split (fun c => c = '\n') = [""] := by
      rw [String.split_of_valid]
      decide
    rw [hsp]
    rfl

/-- Witness for the corrected C2: a two-line string without blank lines
round-trips exactly. -/
theorem to_adf_round_trip_witness :
    _extract_description (_to_adf "Line 1\nLine 3") = some "Line 1\nLine 3" :=
  to_adf_round_trip "Line 1\nLine 3" (by
    rw [String.split_of_valid]
    decide)

/-!
## Claim theorems: field-mapping bijection
-/

theorem get_field_mapping_cases (p : String) :
    get_field_mapping p = [] ∨ ∃ e ∈ PROJECT_FIELDS, get_field_mapping p = e.2 := by
  cases hf : dictGet PROJECT_FIELDS p with
  | none => left; simp [get_field_mapping, hf]
  | some m =>
      right
      exact ⟨(p, m), dictGet_mem hf, by simp [get_field_mapping, hf]⟩

theorem get_field_mapping_values_nodup (p : String) :
    ((get_field_mapping p).map Prod.snd).Nodup := by
  rcases get_field_mapping_cases p with h | ⟨e, he, h⟩
  · rw [h]; exact List.nodup_nil
  · rw [h]
    have hall : ∀ e ∈ PROJECT_FIELDS, ((e.2.map Prod.snd)).Nodup := by decide
    exact hall e he

theorem custom_fields_not_friendly (p : String) :
    ∀ kv ∈ get_field_mapping p, kv.2 ≠ "custom_fields" := by
  rcases get_field_mapping_cases p with h | ⟨e, he, h⟩
  · rw [h]; intro kv hkv; simp at hkv
  · rw [h]
    have hall : ∀ e ∈ PROJECT_FIELDS, ∀ kv ∈ e.2, kv.2 ≠ "custom_fields" := by decide
    exact hall e he

theorem reverseDerive_eq_swap {m : List (String × String)}
    (h : (m.map Prod.snd).Nodup) :
    reverseDerive m = m.map (fun kv => (kv.2, kv.1)) := by
  have hfold : reverseDerive m = dictInsertAll [] (m.map (fun kv => (kv.2, kv.1))) := by
    rw [reverseDerive, dictInsertAll, List.foldl_map]
  rw [hfold, dictInsertAll_eq_append]
  · simp
  · intro q hq; rfl
  · rw [List.map_map]
    exact h

/-- Counterexample to C3 as stated: the reverse-mapping derivation (the
dict comprehension in `get_reverse_mapping`) performs NO load-time
assertion — on a mapping in which two opaque ids share the friendly name
`"team"`, it silently keeps only the last id.  The first id vanishes
from the derived mapping and no error of any kind is raised (the
function's type has no failure case). -/
theorem reverse_mapping_silent_overwrite :
    reverseDerive [("customfield_10001", "team"), ("customfield_10099", "team")] =
      [("team", "customfield_10099")]
    ∧ "customfield_10001" ∉
        (reverseDerive [("customfield_10001", "team"),
          ("customfield_10099", "team")]).map Prod.snd := by
  decide

/-- C3 (corrected): in the static configuration actually shipped, every
project's field mapping maps no two opaque ids to the same friendly name,
so the derived reverse mapping retains one entry per forward entry and
inverts the mapping; the code, however, never asserts this — a colliding
configuration would be silently overwritten, not rejected (see the
counterexample). -/
theorem field_mapping_bijection (p : String) :
    ((get_field_mapping p).map Prod.snd).Nodup
    ∧ get_reverse_mapping p = (get_field_mapping p).map (fun kv => (kv.2, kv.1))
    ∧ (∀ id name, (id, name) ∈ get_field_mapping p →
        dictGet (get_reverse_mapping p) name = some id) := by
  have hnd := get_field_mapping_values_nodup p
  refine ⟨hnd, reverseDerive_eq_swap hnd, ?_⟩
  intro id name hmem
  rw [get_reverse_mapping, reverseDerive_eq_swap hnd]
  apply dictGet_of_nodup_mem
  · rw [List.map_map]
    exact hnd
  · exact List.mem_map.mpr ⟨(id, name), hmem, rfl⟩

/-- Witness for C3 (corrected): in project `ITCM`, the friendly name
`risk_level` reverse-maps to exactly its opaque id. -/
theorem field_mapping_bijection_witness :
    dictGet (get_reverse_mapping "ITCM") "risk_level" = some "customfield_10059" :=
  (field_mapping_bijection "ITCM").2.2 "customfield_10059" "risk_level" (by decide)

/-!
## Claim theorems: field translation
-/

theorem dictInsertAll_cons {β : Type} (d : List (String × β)) (kv : String × β)
    (ps : List (String × β)) :
    dictInsertAll d (kv :: ps) = dictInsertAll (dictInsert d kv.1 kv.2) ps := rfl

theorem dictInsertAll_nil_eq {β : Type} {ps : List (String × β)}
    (hnd : (ps.map Prod.fst).Nodup) : dictInsertAll [] ps = ps := by
  have hfresh : ∀ p ∈ ps, dictHasKey ([] : List (String × β)) p.1 = false :=
    fun p _ => rfl
  rw [dictInsertAll_eq_append hfresh hnd]
  simp

theorem mem_dictInsertAll {β : Type} {d ps : List (String × β)} {kv : String × β}
    (h : kv ∈ dictInsertAll d ps) : kv ∈ d ∨ kv ∈ ps := by
  induction ps generalizing d with
  | nil => exact Or.inl h
  | cons p ps ih =>
      rw [dictInsertAll_cons] at h
      rcases ih h with h | h
      · rcases mem_dictInsert h with h | h
        · exact Or.inl h
        · right
          rw [h]
          exact List.mem_cons_self _ _
      · exact Or.inr (List.mem_cons_of_mem p h)

theorem mapCustomFields_fold (mapping : List (String × String))
    (raw : List (String × Val)) : ∀ (r u : List (String × Val)),
    raw.foldl (mapCustomFieldsStep mapping) (r, u) =
      (dictInsertAll r (knownOf mapping raw), dictInsertAll u (overflowOf mapping raw)) := by
  induction raw with
  | nil => intro r u; rfl
  | cons kv rest ih =>
      intro r u
      simp only [List.foldl_cons]
      by_cases hs : pyStartsWith kv.1 "customfield_"
      · by_cases hn : kv.2.isNull
        · have hstep : mapCustomFieldsStep mapping (r, u) kv = (r, u) := by
            simp [mapCustomFieldsStep, hs, hn]
          have hk : knownOf mapping (kv :: rest) = knownOf mapping rest := by
            simp [knownOf, List.filterMap_cons, hs, hn]
          have ho : overflowOf mapping (kv :: rest) = overflowOf mapping rest := by
            simp [overflowOf, List.filter_cons, hs, hn]
          rw [hstep, ih, hk, ho]
        · cases hm : dictGet mapping kv.1 with
          | some name =>
              have hstep : mapCustomFieldsStep mapping (r, u) kv =
                  (dictInsert r name kv.2, u) := by
                simp [mapCustomFieldsStep, hs, hn, hm]
              have hk : knownOf mapping (kv :: rest) =
                  (name, kv.2) :: knownOf mapping rest := by
                simp [knownOf, List.filterMap_cons, hs, hn, hm]
              have ho : overflowOf mapping (kv :: rest) = overflowOf mapping rest := by
                simp [overflowOf, List.filter_cons, hs, hn, hm]
              rw [hstep, ih, hk, ho, dictInsertAll_cons]
          | none =>
              have hstep : mapCustomFieldsStep mapping (r, u) kv =
                  (r, dictInsert u kv.1 kv.2) := by
                simp [mapCustomFieldsStep, hs, hn, hm]
              have hk : knownOf mapping (kv :: rest) = knownOf mapping rest := by
                simp [knownOf, List.filterMap_cons, hs, hn, hm]
              have ho : overflowOf mapping (kv :: rest) =
                  (kv.1, kv.2) :: overflowOf mapping rest := by
                simp [overflowOf, List.filter_cons, hs, hn, hm]
              rw [hstep, ih, hk, ho, dictInsertAll_cons]
      · have hstep : mapCustomFieldsStep mapping (r, u) kv = (r, u) := by
          simp [mapCustomFieldsStep, hs]
        have hk : knownOf mapping (kv :: rest) = knownOf mapping rest := by
          simp [knownOf, List.filterMap_cons, hs]
        have ho : overflowOf mapping (kv :: rest) = overflowOf mapping rest := by
          simp [overflowOf, List.filter_cons, hs]
        rw [hstep, ih, hk, ho]

theorem mem_knownOf {mapping : List (String × String)} {raw : List (String × Val)}
    {x : String × Val} (h : x ∈ knownOf mapping raw) :
    ∃ kv ∈ raw, (pyStartsWith kv.1 "customfield_" && !kv.2.isNull) = true
      ∧ dictGet mapping kv.1 = some x.1 ∧ x.2 = kv.2 := by
  unfold knownOf at h
  obtain ⟨kv, hkv, hf⟩ := List.mem_filterMap.mp h
  by_cases hs : pyStartsWith kv.1 "customfield_"
  · by_cases hn : kv.2.isNull
    · rw [if_neg (by simp [hn])] at hf
      exact absurd hf (by simp)
    · rw [if_pos (by simp [hs, hn])] at hf
      rw [Option.map_eq_some'] at hf
      obtain ⟨n, hmn, hx⟩ := hf
      subst hx
      exact ⟨kv, hkv, by simp [hs, hn], hmn, rfl⟩
  · rw [if_neg (by simp [hs])] at hf
    exact absurd hf (by simp)

theorem dictGet_inj {m : List (String × String)} (hval : (m.map Prod.snd).Nodup)
    {a b x : String} (ha : dictGet m a = some x) (hb : dictGet m b = some x) :
    a = b := by
  have h1 := dictGet_mem ha
  have h2 := dictGet_mem hb
  have heq := List.inj_on_of_nodup_map hval h1 h2 rfl
  exact congrArg Prod.fst heq

theorem knownOf_keys_nodup {mapping : List (String × String)} {raw : List (String × Val)}
    (hval : (mapping.map Prod.snd).Nodup) (hraw : (raw.map Prod.fst).Nodup) :
    ((knownOf mapping raw).map Prod.fst).Nodup := by
  induction raw with
  | nil => simp [knownOf]
  | cons kv rest ih =>
      simp only [List.map_cons, List.nodup_cons] at hraw
      obtain ⟨hkv, hrest⟩ := hraw
      by_cases hs : pyStartsWith kv.1 "customfield_"
      · by_cases hn : kv.2.isNull
        · have hk : knownOf mapping (kv :: rest) = knownOf mapping rest := by
            simp [knownOf, List.filterMap_cons, hs, hn]
          rw [hk]
          exact ih hrest
        · cases hm : dictGet mapping kv.1 with
          | none =>
              have hk : knownOf mapping (kv :: rest) = knownOf mapping rest := by
                simp [knownOf, List.filterMap_cons, hs, hn, hm]
              rw [hk]
              exact ih hrest
          | some name =>
              have hk : knownOf mapping (kv :: rest) =
                  (name, kv.2) :: knownOf mapping rest := by
                simp [knownOf, List.filterMap_cons, hs, hn, hm]
              rw [hk, List.map_cons, List.nodup_cons]
              refine ⟨?_, ih hrest⟩
              intro hmemname
              obtain ⟨x, hx, hxname⟩ := List.mem_map.mp hmemname
              obtain ⟨kv', hkv', _, hm', _⟩ := mem_knownOf hx
              rw [hxname] at hm'
              have : kv'.1 = kv.1 := dictGet_inj hval hm' hm
              apply hkv
              rw [← this]
              exact List.mem_map.mpr ⟨kv', hkv', rfl⟩
      · have hk : knownOf mapping (kv :: rest) = knownOf mapping rest := by
          simp [knownOf, List.filterMap_cons, hs]
        rw [hk]
        exact ih hrest

theorem overflowOf_keys_nodup {mapping : List (String × String)}
    {raw : List (String × Val)} (hraw : (raw.map Prod.fst).Nodup) :
    ((overflowOf mapping raw).map Prod.fst).Nodup := by
  have hsub : List.Sublist (overflowOf mapping raw) raw := List.filter_sublist raw
  exact (hsub.map Prod.fst).nodup hraw

theorem knownOf_keys_friendly {mapping : List (String × String)}
    {raw : List (String × Val)} {x : String × Val} (h : x ∈ knownOf mapping raw) :
    ∃ kv ∈ mapping, kv.2 = x.1 := by
  obtain ⟨kv, _, _, hm, _⟩ := mem_knownOf h
  exact ⟨(kv.1, x.1), dictGet_mem hm, rfl⟩

theorem reverse_map_fields_fold (p : String) (friendly : List (String × Val)) :
    ∀ acc, friendly.foldl (fun acc kv =>
      match dictGet (get_reverse_mapping p) kv.1 with
      | some fid => dictInsert acc fid kv.2
      | none => dictInsert acc kv.1 kv.2) acc
    = dictInsertAll acc (friendly.map (fun kv => (relabelKey p kv.1, kv.2))) := by
  induction friendly with
  | nil => intro acc; rfl
  | cons kv rest ih =>
      intro acc
      simp only [List.foldl_cons, List.map_cons, dictInsertAll_cons]
      have hstep : (match dictGet (get_reverse_mapping p) kv.1 with
          | some fid => dictInsert acc fid kv.2
          | none => dictInsert acc kv.1 kv.2) =
          dictInsert acc (relabelKey p kv.1) kv.2 := by
        unfold relabelKey
        cases dictGet (get_reverse_mapping p) kv.1 <;> rfl
      rw [hstep, ih]

theorem reverse_map_fields_eq (p : String) (friendly : List (String × Val)) :
    reverse_map_fields p friendly =
      dictInsertAll [] (friendly.map (fun kv => (relabelKey p kv.1, kv.2))) :=
  reverse_map_fields_fold p friendly []

theorem map_custom_fields_characterization (p : String) (raw : List (String × Val))
    (hraw : (raw.map Prod.fst).Nodup) :
    map_custom_fields p raw =
      if (overflowOf (get_field_mapping p) raw).isEmpty then
        knownOf (get_field_mapping p) raw
      else
        knownOf (get_field_mapping p) raw ++
          [("custom_fields", Val.obj (overflowOf (get_field_mapping p) raw))] := by
  have hval := get_field_mapping_values_nodup p
  have hknd := knownOf_keys_nodup hval hraw
  have hond : ((overflowOf (get_field_mapping p) raw).map Prod.fst).Nodup :=
    overflowOf_keys_nodup hraw
  have hbridge := mapCustomFields_fold (get_field_mapping p) raw [] []
  have hkeq := dictInsertAll_nil_eq hknd
  have hoeq := dictInsertAll_nil_eq hond
  have hfresh : dictHasKey (knownOf (get_field_mapping p) raw) "custom_fields" = false := by
    rw [dictHasKey_eq_false_iff]
    intro kv hkv hk
    obtain ⟨m, hm, hm2⟩ := knownOf_keys_friendly hkv
    exact custom_fields_not_friendly p m hm (by rw [hm2, hk])
  simp only [map_custom_fields]
  rw [hbridge]
  simp only [hkeq, hoeq]
  by_cases hov : (overflowOf (get_field_mapping p) raw).isEmpty
  · rw [if_pos hov, if_pos hov]
  · rw [if_neg hov, if_neg hov, dictInsert_of_fresh _ hfresh]

/-- C4: inbound translation emits no entry for a null-valued custom
field, emits known ids under their friendly names and unknown ids
verbatim into the overflow bag, and attaches the overflow under
`custom_fields` exactly when it is non-empty (never as an empty
structure); outbound translation only relabels keys — known friendly
names become their opaque ids, unknown keys pass through — and never
transforms a value. -/
theorem field_translation_correct (p : String) (raw friendly : List (String × Val))
    (hraw : (raw.map Prod.fst).Nodup) :
    (map_custom_fields p raw =
      if (overflowOf (get_field_mapping p) raw).isEmpty then
        knownOf (get_field_mapping p) raw
      else
        knownOf (get_field_mapping p) raw ++
          [("custom_fields", Val.obj (overflowOf (get_field_mapping p) raw))])
    ∧ (∀ kv ∈ map_custom_fields p raw, kv.2.isNull = false)
    ∧ (∀ id v, (id, v) ∈ raw → v.isNull = false → pyStartsWith id "customfield_" = true →
        (∀ name, dictGet (get_field_mapping p) id = some name →
          (name, v) ∈ knownOf (get_field_mapping p) raw)
        ∧ (dictGet (get_field_mapping p) id = none →
          (id, v) ∈ overflowOf (get_field_mapping p) raw))
    ∧ (∀ kv ∈ reverse_map_fields p friendly,
        ∃ k, (k, kv.2) ∈ friendly ∧ kv.1 = relabelKey p k)
    ∧ ((friendly.map (fun kv => relabelKey p kv.1)).Nodup →
        reverse_map_fields p friendly =
          friendly.map (fun kv => (relabelKey p kv.1, kv.2))) := by
  have hchar := map_custom_fields_characterization p raw hraw
  refine ⟨hchar, ?_, ?_, ?_, ?_⟩
  · intro kv hkv
    rw [hchar] at hkv
    have hknown : ∀ x ∈ knownOf (get_field_mapping p) raw, (x : String × Val).2.isNull = false := by
      intro x hx
      obtain ⟨kv', _, hc, _, hx2⟩ := mem_knownOf hx
      rw [hx2]
      rw [Bool.and_eq_true] at hc
      obtain ⟨_, hnn⟩ := hc
      simpa using hnn
    split at hkv
    · exact hknown kv hkv
    · rcases List.mem_append.mp hkv with h | h
      · exact hknown kv h
      · rw [List.mem_singleton] at h
        rw [h]
        rfl
  · intro id v hmem hnull hstart
    constructor
    · intro name hm
      apply List.mem_filterMap.mpr
      refine ⟨(id, v), hmem, ?_⟩
      rw [if_pos (by simp [hstart, hnull]), hm]
      rfl
    · intro hm
      apply List.mem_filter.mpr
      refine ⟨hmem, ?_⟩
      simp [hstart, hnull, hm]
  · intro kv hkv
    rw [reverse_map_fields_eq] at hkv
    rcases mem_dictInsertAll hkv with h | h
    · simp at h
    · obtain ⟨x, hx, hxe⟩ := List.mem_map.mp h
      obtain ⟨a, b⟩ := x
      refine ⟨a, ?_, ?_⟩
      · rw [← hxe]
        exact hx
      · rw [← hxe]
  · intro hkeys
    rw [reverse_map_fields_eq]
    have hnd : ((friendly.map (fun kv => (relabelKey p kv.1, kv.2))).map Prod.fst).Nodup := by
      rw [List.map_map]
      exact hkeys
    exact dictInsertAll_nil_eq hnd

/-- Witness for C4: a concrete `ITCM` response with a known custom field,
a null custom field (dropped), an unknown custom field (kept verbatim in
the overflow), and a non-custom key; and a concrete outbound translation
relabelling a known friendly name and passing an unknown key through
with values untouched. -/
theorem field_translation_correct_witness :
    map_custom_fields "ITCM"
      [("customfield_10055", Val.str "Software"), ("customfield_10059", Val.null),
       ("customfield_99999", Val.str "x"), ("summary", Val.str "s")] =
      [("work_type", Val.str "Software"),
       ("custom_fields", Val.obj [("customfield_99999", Val.str "x")])]
    ∧ reverse_map_fields "ITCM" [("risk_level", Val.str "High"), ("other", Val.num 1)] =
      [("customfield_10059", Val.str "High"), ("other", Val.num 1)] := by
  constructor
  · have h := (field_translation_correct "ITCM"
      [("customfield_10055", Val.str "Software"), ("customfield_10059", Val.null),
       ("customfield_99999", Val.str "x"), ("summary", Val.str "s")]
      [] (by decide)).1
    rw [h]
    rfl
  · have h := (field_translation_correct "ITCM"
      []
      [("risk_level", Val.str "High"), ("other", Val.num 1)] (by decide)).2.2.2.2
      (by decide)
    rw [h]
    rfl

end JiraMCP
